import Mathlib

/-!
Verification development for the CVector repository: a dynamic array
(`Vector<T>`) backed by reserved virtual address space.  The repository has
two variants of the container:

* `src/CustomVector/CustomVector_lean.cpp`, embedded below in namespace
  `LeanVec` (fields `m_size`, `m_capacity`, `m_pageSize`,
  `m_physical_mem_begin/end`, `m_virtual_mem_begin/end`);
* `src/CustomVector/CustomVector.cpp`, embedded below in namespace `CV`
  (fields `m_size`, `m_capacity`, `m_committed_memory_begin/end`,
  `m_virtual_memory_begin/end`, `m_pageSize`).

The embedding abstracts addresses into byte offsets from the reserved base:
`committed` is the number of committed bytes
(`m_physical_mem_end - m_physical_mem_begin` resp.
`m_committed_memory_end - m_committed_memory_begin`), `size` is the stored
`m_size` counter, `data` is the list of values held by the live slots
(`data.length = m_size` whenever the container is in an ordinary state;
the two can diverge when `m_size` wraps, see `LeanVec.eraseRange`),
`stride` is `sizeof(T)` and `pageSize` is the OS page size.  `assert`
failures are modeled as errors (`Err.indexOutOfRange` /
`Err.capacityExceeded`); a read or write of memory outside the committed
range hits a PAGE_NOACCESS page and is modeled as `Err.fault`, as is an
element-lifecycle call on a slot holding no live element (in the running
program the former is a crash and the latter undefined behavior; in every
such situation reached below the real loop also runs into uncommitted
pages before completing).  Element-lifecycle calls (constructor, copy
constructor, assignment operator, destructor) are recorded as an event
trace, mirroring the static counters the repository's unit tests use.
-/

/-- `MAX_VECTOR_CAPACITY` from both sources: the 1 GiB reservation bound. -/
def MAX_VECTOR_CAPACITY : Nat := 1024 * 1024 * 1024

namespace MathUtil

/-- `MathUtil::roundUpToMultiple` from CustomVector_lean.cpp (identical to
`VirtualUnicornStuff::roundUp` in CustomVector.cpp). -/
def roundUpToMultiple (numToRound multiple : Nat) : Nat :=
  if multiple = 0 then numToRound
  else if numToRound % multiple = 0 then numToRound
  else numToRound + multiple - numToRound % multiple

/-- `MathUtil::roundDownToMultiple` from CustomVector_lean.cpp. -/
def roundDownToMultiple (numToRound multiple : Nat) : Nat :=
  if multiple = 0 then numToRound
  else if numToRound % multiple = 0 then numToRound
  else numToRound - numToRound % multiple

end MathUtil

/-- Truncating `size_t` subtraction: the value of `a - b` computed in 64-bit
unsigned arithmetic (for `b ≤ a + 2^64`, which covers every subtraction the
sources perform).  Used where the C++ subtracts `size_t` values that may
wrap, such as `m_size - 1` on an empty vector. -/
def sub64 (a b : Nat) : Nat := (a + 2 ^ 64 - b) % 2 ^ 64

/-- Failure outcomes of a container operation.  `indexOutOfRange` and
`capacityExceeded` are failed `assert`s (the checked-build errors of the
spec); `fault` is an access to an address outside the committed range
(PAGE_NOACCESS) or an element-lifecycle call on a slot holding no live
element: the crash / undefined-behavior outcome. -/
inductive Err where
  | indexOutOfRange
  | capacityExceeded
  | fault
  deriving DecidableEq

instance {ε σ : Type} [DecidableEq ε] [DecidableEq σ] : DecidableEq (Except ε σ) :=
  fun x y =>
    match x, y with
    | .error a, .error b =>
      if h : a = b then .isTrue (by rw [h]) else
        .isFalse (fun c => h (by injection c))
    | .error _, .ok _ => .isFalse (fun c => Except.noConfusion c)
    | .ok _, .error _ => .isFalse (fun c => Except.noConfusion c)
    | .ok a, .ok b =>
      if h : a = b then .isTrue (by rw [h]) else
        .isFalse (fun c => h (by injection c))

/-- Element-lifecycle events, mirroring the repository's instrumented test
type `Custom` (CTOR / CCTOR / assignment / DTOR static counters).  Indices
are element slots counted from the committed base. -/
inductive Ev where
  | ctor (i : Nat)
  | cctor (i : Nat)
  | assign (dst src : Nat)
  | dtor (i : Nat)
  deriving DecidableEq

/-- Abstract state of a `Vector<T>`: `data` the values of the live slots,
`size` the stored `m_size` counter (equal to `data.length` in every
ordinary state), `capacity` the stored `m_capacity` field, `committed` the
committed bytes `m_physical_mem_end - m_physical_mem_begin`, `pageSize`
the cached OS page size and `stride` the value of `sizeof(T)`. -/
structure VecState (α : Type) where
  data : List α
  size : Nat
  capacity : Nat
  committed : Nat
  pageSize : Nat
  stride : Nat
  deriving DecidableEq

/-- State after `Vector<T>::Vector()`: nothing committed, size and capacity
zero (both variants). -/
def mkVector (α : Type) (pageSize stride : Nat) : VecState α :=
  ⟨[], 0, 0, 0, pageSize, stride⟩

namespace LeanVec

/-- `Vector<T>::GetMaxElements` from CustomVector_lean.cpp:
`MAX_VECTOR_CAPACITY / sizeof(T)`. -/
def GetMaxElements (s : VecState α) : Nat :=
  MAX_VECTOR_CAPACITY / s.stride

/-- `Vector<T>::GetGrowSizeInElements` from CustomVector_lean.cpp:
`m_capacity ? m_capacity * 2 : 8`. -/
def GetGrowSizeInElements (s : VecState α) : Nat :=
  if s.capacity = 0 then 8 else s.capacity * 2

/-- `Vector<T>::GrowByBytes` from CustomVector_lean.cpp.  Rejects zero
requests, rounds the request up to page granularity, asserts that the
committed end has not yet reached the reserved end, clamps an overshooting
request to the remaining space rounded down to page granularity, then
commits and recomputes `m_capacity` by flooring division. -/
def GrowByBytes (s : VecState α) (growSizeInBytes : Nat) : Except Err (VecState α) :=
  if growSizeInBytes = 0 then .ok s
  else
    let rounded := MathUtil.roundUpToMultiple growSizeInBytes s.pageSize
    if s.committed = MAX_VECTOR_CAPACITY then .error .capacityExceeded
    else
      let rounded2 :=
        if s.committed + rounded > MAX_VECTOR_CAPACITY then
          MathUtil.roundDownToMultiple (MAX_VECTOR_CAPACITY - s.committed) s.pageSize
        else rounded
      .ok { s with committed := s.committed + rounded2,
                   capacity := (s.committed + rounded2) / s.stride }

/-- `Vector<T>::push_back` from CustomVector_lean.cpp.  Grows when full,
then placement-constructs a copy of `object` at byte offset
`m_size * sizeof(T)` and increments `m_size`; the write faults if it
extends past the committed end (the "let the user crash" comment in the
source). -/
def push_back (s : VecState α) (object : α) : Except Err (VecState α × List Ev) :=
  match (if s.capacity = s.size
         then GrowByBytes s (GetGrowSizeInElements s * s.stride)
         else .ok s) with
  | .error e => .error e
  | .ok s1 =>
    if (s1.size + 1) * s1.stride ≤ s1.committed then
      .ok ({ s1 with data := s1.data ++ [object], size := s1.size + 1 },
           [Ev.cctor s1.size])
    else .error .fault

/-- `Vector<T>::reserve` from CustomVector_lean.cpp: assert the request is
within the hard ceiling, no-op when `newCapacity <= m_capacity`, otherwise
grow by `(newCapacity - m_capacity) * sizeof(T)` bytes. -/
def reserve (s : VecState α) (newCapacity : Nat) : Except Err (VecState α) :=
  if newCapacity > GetMaxElements s then .error .capacityExceeded
  else if newCapacity ≤ s.capacity then .ok s
  else GrowByBytes s ((newCapacity - s.capacity) * s.stride)

/-- Shared body of the two `Vector<T>::resize` overloads of
CustomVector_lean.cpp (the source duplicates this code; the overloads differ
only in constructing new slots with `T` / `T(object)`, captured here by the
new-slot value `val` and the event constructor `mkEv`).  The construction
loop writes slots `m_size .. newSize-1`; it faults if the last write ends
past the committed bytes. -/
def resizeCore (s : VecState α) (newSize : Nat) (val : α) (mkEv : Nat → Ev) :
    Except Err (VecState α × List Ev) :=
  if newSize > GetMaxElements s then .error .capacityExceeded
  else if newSize = s.size then .ok (s, [])
  else if newSize > s.size then
    match (if newSize > s.capacity
           then GrowByBytes s ((newSize - s.capacity) * s.stride)
           else .ok s) with
    | .error e => .error e
    | .ok s1 =>
      if newSize * s1.stride ≤ s1.committed then
        .ok ({ s1 with data := s1.data ++ List.replicate (newSize - s1.size) val,
                       size := newSize },
             (List.range' s1.size (newSize - s1.size)).map mkEv)
      else .error .fault
  else
    .ok ({ s with data := s.data.take newSize, size := newSize },
         (List.range' newSize (s.size - newSize)).map Ev.dtor)

/-- `Vector<T>::resize(size_t)` from CustomVector_lean.cpp: new slots are
default-constructed; `defaultVal` stands for the default-constructed value
of `T`. -/
def resize (s : VecState α) (newSize : Nat) (defaultVal : α) :
    Except Err (VecState α × List Ev) :=
  resizeCore s newSize defaultVal Ev.ctor

/-- `Vector<T>::resize(size_t, const T&)` from CustomVector_lean.cpp: new
slots are copy-constructed from `object`. -/
def resizeFill (s : VecState α) (newSize : Nat) (object : α) :
    Except Err (VecState α × List Ev) :=
  resizeCore s newSize object Ev.cctor

/-- The shift loop shared by `Vector<T>::erase(index)` (gap of 1) and
`Vector<T>::erase(rangeBegin, rangeEnd)` (gap `elementsToDelete`) of
CustomVector_lean.cpp: `n` iterations of `arr[i] = arr[i + k]` starting at
index `i`, recording one assignment event per iteration.  A read outside
the live slots is a fault (when the real loop reaches such a slot it keeps
running on raw memory and crashes against uncommitted pages before
completing). -/
def shiftLoop (l : List α) (i k : Nat) : Nat → Option (List α × List Ev)
  | 0 => some (l, [])
  | n + 1 =>
    match l[i + k]? with
    | none => none
    | some v =>
      match shiftLoop (l.set i v) (i + 1) k n with
      | none => none
      | some (l1, evs) => some (l1, Ev.assign i (i + k) :: evs)

/-- `Vector<T>::erase(size_t index)` from CustomVector_lean.cpp: assert
`index < m_size`, shift every following element one slot down by
assignment, destroy the last slot, decrement `m_size`.  The `m_size - 1`
expressions are `size_t` subtractions (`sub64`). -/
def erase (s : VecState α) (index : Nat) : Except Err (VecState α × List Ev) :=
  if index < s.size then
    match shiftLoop s.data index 1 (sub64 s.size 1 - index) with
    | none => .error .fault
    | some (l1, evs) =>
      .ok ({ s with data := l1.take (sub64 s.size 1), size := sub64 s.size 1 },
           evs ++ [Ev.dtor (sub64 s.size 1)])
  else .error .indexOutOfRange

/-- `Vector<T>::erase(size_t rangeBegin, size_t rangeEnd)` from
CustomVector_lean.cpp.  Asserts `rangeEnd >= rangeBegin` and
`rangeEnd <= m_size - 1` (a `size_t` subtraction that wraps when
`m_size = 0`), is a no-op when `rangeBegin == rangeEnd`, otherwise shifts by
`elementsToDelete = rangeEnd - rangeBegin + 1`, destroys the final
`elementsToDelete` slots, and executes `m_size -= elementsToDelete` — again
a `size_t` subtraction, so the stored size itself can wrap. -/
def eraseRange (s : VecState α) (rangeBegin rangeEnd : Nat) :
    Except Err (VecState α × List Ev) :=
  if ¬ rangeEnd ≥ rangeBegin then .error .indexOutOfRange
  else if ¬ rangeEnd ≤ sub64 s.size 1 then .error .indexOutOfRange
  else if rangeBegin = rangeEnd then .ok (s, [])
  else
    let elementsToDelete := rangeEnd - rangeBegin + 1
    let bound := sub64 s.size elementsToDelete
    match shiftLoop s.data rangeBegin elementsToDelete (bound - rangeBegin) with
    | none => .error .fault
    | some (l1, evs) =>
      .ok ({ s with data := l1.take bound, size := bound },
           evs ++ (List.range' bound (s.size - bound)).map Ev.dtor)

/-- `Vector<T>::erase_by_swap` from CustomVector_lean.cpp: assert
`index < m_size`, assign the last element onto `index` unless `index` is the
last position, destroy the last slot, decrement `m_size`. -/
def erase_by_swap (s : VecState α) (index : Nat) : Except Err (VecState α × List Ev) :=
  if index < s.size then
    match s.data[sub64 s.size 1]? with
    | none => .error .fault
    | some lastElement =>
      if index < sub64 s.size 1 then
        .ok ({ s with data := (s.data.set index lastElement).take (sub64 s.size 1),
                      size := sub64 s.size 1 },
             [Ev.assign index (sub64 s.size 1), Ev.dtor (sub64 s.size 1)])
      else
        .ok ({ s with data := s.data.take (sub64 s.size 1), size := sub64 s.size 1 },
             [Ev.dtor (sub64 s.size 1)])
  else .error .indexOutOfRange

/-- `Vector<T>::operator[]` from CustomVector_lean.cpp (both the mutable and
the const overload perform the same assert and access). -/
def subscript (s : VecState α) (index : Nat) : Except Err α :=
  if index < s.size then
    match s.data[index]? with
    | some v => .ok v
    | none => .error .fault
  else .error .indexOutOfRange

/-- The copy loop of `Vector<T>::operator=` (and of the copy constructor):
`push_back(other[i])` for `i = 0 .. other.m_size-1`.  Every read
`other[i]` is within `other`'s live range, so it is modeled directly on
`other.data`. -/
def pushAll (s : VecState α) : List α → Except Err (VecState α × List Ev)
  | [] => .ok (s, [])
  | v :: vs =>
    match push_back s v with
    | .error e => .error e
    | .ok (s1, evs1) =>
      match pushAll s1 vs with
      | .error e => .error e
      | .ok (s2, evs2) => .ok (s2, evs1 ++ evs2)

/-- `Vector<T>::operator=` from CustomVector_lean.cpp.  `selfIsOther` models
the pointer-identity test `this != &other`: it is `true` exactly for
self-assignment.  Otherwise: destroy all own elements, reserve the other
vector's capacity only when it is larger (the documented never-shrink
policy), set `m_size = 0`, then push_back a copy of every element. -/
def operatorAssign (self other : VecState α) (selfIsOther : Bool) :
    Except Err (VecState α × List Ev) :=
  if selfIsOther then .ok (self, [])
  else
    match (if other.capacity > self.capacity
           then reserve self other.capacity
           else .ok self) with
    | .error e => .error e
    | .ok s1 =>
      match pushAll { s1 with data := [], size := 0 } other.data with
      | .error e => .error e
      | .ok (s2, evs) =>
        .ok (s2, (List.range self.size).map Ev.dtor ++ evs)

end LeanVec

namespace CV

/-- `VirtualUnicornStuff::roundUp` from CustomVector.cpp (same body as
`MathUtil::roundUpToMultiple`). -/
def roundUp (numToRound multiple : Nat) : Nat :=
  if multiple = 0 then numToRound
  else if numToRound % multiple = 0 then numToRound
  else numToRound + multiple - numToRound % multiple

/-- `Vector<T>::GetDefaultGrowSize` from CustomVector.cpp:
`m_capacity * sizeof(T)` bytes (so the grow request is zero on an empty
vector; `Grow` then substitutes one element rounded up to a page). -/
def GetDefaultGrowSize (s : VecState α) : Nat :=
  s.capacity * s.stride

/-- `Vector<T>::Grow` from CustomVector.cpp.  A zero request is replaced by
`roundUp(sizeof(T), pageSize)`; an overshooting request is clamped to
exactly the remaining address space; the assert fires once the committed
end has reached the reserved end; then the range is committed and
`m_capacity` recomputed by flooring division. -/
def Grow (s : VecState α) (growSize : Nat) : Except Err (VecState α) :=
  let g1 := if growSize ≠ 0 then roundUp growSize s.pageSize
            else roundUp s.stride s.pageSize
  let g2 := if s.committed + g1 > MAX_VECTOR_CAPACITY
            then MAX_VECTOR_CAPACITY - s.committed
            else g1
  if s.committed = MAX_VECTOR_CAPACITY then .error .capacityExceeded
  else .ok { s with committed := s.committed + g2,
                    capacity := (s.committed + g2) / s.stride }

/-- `Vector<T>::reserve` from CustomVector.cpp.  Note the guard is the
strict `newCapacity < m_capacity`: a request equal to the current capacity
is not a no-op but calls `Grow(0)`. -/
def reserve (s : VecState α) (newCapacity : Nat) : Except Err (VecState α) :=
  if newCapacity < s.capacity then .ok s
  else Grow s ((newCapacity - s.capacity) * s.stride)

/-- `Vector<T>::erase(size_t index)` from CustomVector.cpp.  There is no
index check at all (the comment "Rangechecks are always done in []
operator" is wrong: the function accesses `m_internal_array` directly).
Calling the destructor on a slot outside the live range is undefined
behavior, modeled as a fault.  For a live index: destructor at `index`,
`memmove` of the tail one slot down, `--m_size`. -/
def erase (s : VecState α) (index : Nat) : Except Err (VecState α × List Ev) :=
  if index < s.size then
    .ok ({ s with data := s.data.take index ++ s.data.drop (index + 1),
                  size := sub64 s.size 1 },
         [Ev.dtor index])
  else .error .fault

/-- `Vector<T>::erase(size_t startIndex, size_t endIndex)` from
CustomVector.cpp.  `startIndex == endIndex` delegates to single-element
`erase(endIndex)`; otherwise asserts `endIndex > startIndex`, destroys
slots `startIndex .. endIndex`, and `memmove`s the tail down.  This
variant never updates `m_size`: the bytes are rearranged but the stored
size stays what it was, the final slots keeping stale copies. -/
def eraseRange (s : VecState α) (startIndex endIndex : Nat) :
    Except Err (VecState α × List Ev) :=
  if startIndex = endIndex then erase s endIndex
  else if ¬ endIndex > startIndex then .error .indexOutOfRange
  else if endIndex < s.size then
    .ok ({ s with data :=
            if endIndex < sub64 s.size 1 then
              s.data.take startIndex ++ s.data.drop (endIndex + 1) ++
                s.data.drop (startIndex + (s.size - 1 - endIndex))
            else s.data },
         (List.range' startIndex (endIndex - startIndex + 1)).map Ev.dtor)
  else .error .fault

end CV

/-- Well-formedness of a container state: positive stride and page size, the
page size divides the 1 GiB reservation (it is a power-of-two OS page), the
committed range is page-aligned and inside the reservation, `m_capacity` is
the recomputed `committed / stride`, the stored `m_size` counts exactly the
live slots, and the live count fits the capacity. -/
def WF (s : VecState α) : Prop :=
  0 < s.stride ∧ 0 < s.pageSize ∧ s.pageSize ∣ MAX_VECTOR_CAPACITY ∧
  s.pageSize ∣ s.committed ∧ s.committed ≤ MAX_VECTOR_CAPACITY ∧
  s.capacity = s.committed / s.stride ∧ s.size = s.data.length ∧
  s.size ≤ s.capacity

instance {α : Type} (s : VecState α) : Decidable (WF s) := by
  unfold WF; infer_instance

/-- One public mutation of the CustomVector_lean.cpp container, for stating
properties of arbitrary operation sequences.  `assignFrom` carries the
source vector and the pointer-identity flag of `operator=`. -/
inductive Op (α : Type) where
  | push (v : α)
  | reserveOp (x : Nat)
  | resizeOp (n : Nat) (d : α)
  | resizeFillOp (n : Nat) (v : α)
  | eraseOp (i : Nat)
  | eraseRangeOp (b e : Nat)
  | eraseSwapOp (i : Nat)
  | assignFrom (other : VecState α) (selfIsOther : Bool)

/-- Apply one operation to a state (events discarded). -/
def applyOp (s : VecState α) : Op α → Except Err (VecState α)
  | .push v => (LeanVec.push_back s v).map Prod.fst
  | .reserveOp x => LeanVec.reserve s x
  | .resizeOp n d => (LeanVec.resize s n d).map Prod.fst
  | .resizeFillOp n v => (LeanVec.resizeFill s n v).map Prod.fst
  | .eraseOp i => (LeanVec.erase s i).map Prod.fst
  | .eraseRangeOp b e => (LeanVec.eraseRange s b e).map Prod.fst
  | .eraseSwapOp i => (LeanVec.erase_by_swap s i).map Prod.fst
  | .assignFrom other selfIsOther => (LeanVec.operatorAssign s other selfIsOther).map Prod.fst

/-- An operation is `safeOp` unless it is the one call that can wrap the
stored `m_size`: a range erase with `rangeEnd` equal to the largest
`size_t` value and `rangeBegin ≠ rangeEnd` (see `LeanVec.eraseRange`). -/
def safeOp : Op α → Prop
  | .eraseRangeOp b e => b = e ∨ e ≠ 2 ^ 64 - 1
  | _ => True

instance {α : Type} (op : Op α) : Decidable (safeOp op) := by
  unfold safeOp; cases op <;> infer_instance

/-- Run a sequence of operations; a failed operation aborts the run (a
failed assert or a fault terminates the program). -/
def run (s : VecState α) : List (Op α) → Except Err (VecState α)
  | [] => .ok s
  | op :: ops =>
    match applyOp s op with
    | .error e => .error e
    | .ok s1 => run s1 ops

/-! ### Arithmetic helper lemmas -/

theorem roundUp_ge (n m : Nat) : n ≤ MathUtil.roundUpToMultiple n m := by
  unfold MathUtil.roundUpToMultiple
  split
  · exact Nat.le_refl n
  · split
    · exact Nat.le_refl n
    · have h : n % m < m := Nat.mod_lt _ (Nat.pos_of_ne_zero (by assumption))
      omega

theorem roundUp_dvd (n m : Nat) (hm : 0 < m) : m ∣ MathUtil.roundUpToMultiple n m := by
  unfold MathUtil.roundUpToMultiple
  rw [if_neg (Nat.pos_iff_ne_zero.mp hm)]
  split
  · exact Nat.dvd_of_mod_eq_zero (by assumption)
  · have h1 : n % m < m := Nat.mod_lt _ hm
    have h2 := Nat.div_add_mod n m
    exact ⟨n / m + 1, by rw [Nat.mul_add, Nat.mul_one]; omega⟩

theorem roundDown_le (n m : Nat) : MathUtil.roundDownToMultiple n m ≤ n := by
  unfold MathUtil.roundDownToMultiple
  split
  · exact Nat.le_refl n
  · split
    · exact Nat.le_refl n
    · omega

theorem roundDown_dvd (n m : Nat) (hm : 0 < m) : m ∣ MathUtil.roundDownToMultiple n m := by
  unfold MathUtil.roundDownToMultiple
  rw [if_neg (Nat.pos_iff_ne_zero.mp hm)]
  split
  · exact Nat.dvd_of_mod_eq_zero (by assumption)
  · have h2 := Nat.div_add_mod n m
    exact ⟨n / m, by omega⟩

theorem roundDown_eq_of_dvd (n m : Nat) (h : m ∣ n) : MathUtil.roundDownToMultiple n m = n := by
  unfold MathUtil.roundDownToMultiple
  split
  · rfl
  · rw [if_pos (Nat.mod_eq_zero_of_dvd h)]

theorem sub64_eq (a b : Nat) (hb : b ≤ a) (ha : a - b < 2 ^ 64) : sub64 a b = a - b := by
  unfold sub64
  rw [show a + 2 ^ 64 - b = a - b + 2 ^ 64 by omega, Nat.add_mod_right]
  exact Nat.mod_eq_of_lt ha

/-! ### Consequences of well-formedness -/

theorem wf_cap_le_max {α : Type} {s : VecState α} (hWF : WF s) :
    s.capacity ≤ MAX_VECTOR_CAPACITY / s.stride := by
  obtain ⟨-, -, -, -, hle, hcap, -, -⟩ := hWF
  rw [hcap]
  exact Nat.div_le_div_right hle

theorem wf_size_lt {α : Type} {s : VecState α} (hWF : WF s) :
    s.size < 2 ^ 64 := by
  have h1 : s.size ≤ s.capacity := hWF.2.2.2.2.2.2.2
  have h2 := wf_cap_le_max hWF
  have h3 : MAX_VECTOR_CAPACITY / s.stride ≤ MAX_VECTOR_CAPACITY := Nat.div_le_self _ _
  have h4 : MAX_VECTOR_CAPACITY < 2 ^ 64 := by decide
  omega

theorem wf_cap_mul_le {α : Type} {s : VecState α} (hWF : WF s) :
    s.capacity * s.stride ≤ s.committed := by
  rw [hWF.2.2.2.2.2.1]
  exact Nat.div_mul_le_self _ _

/-! ### Lemmas about GrowByBytes and reserve (CustomVector_lean.cpp) -/

theorem growByBytes_ok_WF {α : Type} {s s' : VecState α} {g : Nat} (hWF : WF s)
    (h : LeanVec.GrowByBytes s g = .ok s') :
    WF s' ∧ s'.data = s.data ∧ s'.size = s.size ∧ s'.stride = s.stride ∧
    s'.pageSize = s.pageSize ∧ s.capacity ≤ s'.capacity ∧ s.committed ≤ s'.committed := by
  obtain ⟨hstr, hpg, hdM, hdC, hle, hcap, hsz, hlen⟩ := hWF
  unfold LeanVec.GrowByBytes at h
  split at h
  · cases h
    exact ⟨⟨hstr, hpg, hdM, hdC, hle, hcap, hsz, hlen⟩, rfl, rfl, rfl, rfl,
      Nat.le_refl _, Nat.le_refl _⟩
  · simp only [] at h
    split at h
    · exact Except.noConfusion h
    · by_cases hcl : s.committed + MathUtil.roundUpToMultiple g s.pageSize > MAX_VECTOR_CAPACITY
      · rw [if_pos hcl] at h
        cases h
        have hdd := roundDown_dvd (MAX_VECTOR_CAPACITY - s.committed) s.pageSize hpg
        have hdl := roundDown_le (MAX_VECTOR_CAPACITY - s.committed) s.pageSize
        have hC : s.committed +
            MathUtil.roundDownToMultiple (MAX_VECTOR_CAPACITY - s.committed) s.pageSize ≤
            MAX_VECTOR_CAPACITY := by omega
        refine ⟨⟨hstr, hpg, hdM, Nat.dvd_add hdC hdd, hC, rfl, hsz, ?_⟩,
          rfl, rfl, rfl, rfl, ?_, Nat.le_add_right _ _⟩
        · exact le_trans hlen (by rw [hcap]; exact Nat.div_le_div_right (Nat.le_add_right _ _))
        · rw [hcap]; exact Nat.div_le_div_right (Nat.le_add_right _ _)
      · rw [if_neg hcl] at h
        cases h
        have hud := roundUp_dvd g s.pageSize hpg
        have hC : s.committed + MathUtil.roundUpToMultiple g s.pageSize ≤
            MAX_VECTOR_CAPACITY := by omega
        refine ⟨⟨hstr, hpg, hdM, Nat.dvd_add hdC hud, hC, rfl, hsz, ?_⟩,
          rfl, rfl, rfl, rfl, ?_, Nat.le_add_right _ _⟩
        · exact le_trans hlen (by rw [hcap]; exact Nat.div_le_div_right (Nat.le_add_right _ _))
        · rw [hcap]; exact Nat.div_le_div_right (Nat.le_add_right _ _)

theorem growByBytes_reaches {α : Type} {s : VecState α} {x : Nat} (hWF : WF s)
    (hx : x ≤ MAX_VECTOR_CAPACITY / s.stride) (hcap : s.capacity < x) :
    ∃ s', LeanVec.GrowByBytes s ((x - s.capacity) * s.stride) = .ok s' ∧ x ≤ s'.capacity := by
  obtain ⟨hstr, hpg, hdM, hdC, hle, hceq, hsz, hlen⟩ := hWF
  have hg : (x - s.capacity) * s.stride ≠ 0 :=
    Nat.mul_ne_zero (by omega) (by omega)
  have hMAX : s.committed ≠ MAX_VECTOR_CAPACITY := by
    intro hE
    rw [hceq, hE] at hcap
    omega
  unfold LeanVec.GrowByBytes
  rw [if_neg hg]
  simp only []
  rw [if_neg hMAX]
  by_cases hcl : s.committed + MathUtil.roundUpToMultiple ((x - s.capacity) * s.stride) s.pageSize >
      MAX_VECTOR_CAPACITY
  · rw [if_pos hcl]
    refine ⟨_, rfl, ?_⟩
    have hsub : s.pageSize ∣ MAX_VECTOR_CAPACITY - s.committed := Nat.dvd_sub' hdM hdC
    rw [roundDown_eq_of_dvd _ _ hsub,
        show s.committed + (MAX_VECTOR_CAPACITY - s.committed) = MAX_VECTOR_CAPACITY by omega]
    exact hx
  · rw [if_neg hcl]
    refine ⟨_, rfl, ?_⟩
    have h1 : s.capacity * s.stride ≤ s.committed := by
      rw [hceq]; exact Nat.div_mul_le_self _ _
    have h2 := roundUp_ge ((x - s.capacity) * s.stride) s.pageSize
    have h3 : x * s.stride = s.capacity * s.stride + (x - s.capacity) * s.stride := by
      rw [← Nat.add_mul, Nat.add_sub_cancel' (Nat.le_of_lt hcap)]
    rw [Nat.le_div_iff_mul_le hstr]
    omega

theorem reserve_ok {α : Type} {s : VecState α} {x : Nat} (hWF : WF s)
    (hx : x ≤ LeanVec.GetMaxElements s) :
    ∃ s', LeanVec.reserve s x = .ok s' ∧ WF s' ∧ x ≤ s'.capacity ∧
      s.capacity ≤ s'.capacity ∧ s'.data = s.data ∧ s'.size = s.size ∧
      s'.stride = s.stride ∧ s'.pageSize = s.pageSize ∧ s.committed ≤ s'.committed := by
  unfold LeanVec.reserve
  rw [if_neg (by omega : ¬ x > LeanVec.GetMaxElements s)]
  by_cases hxc : x ≤ s.capacity
  · rw [if_pos hxc]
    exact ⟨s, rfl, hWF, hxc, Nat.le_refl _, rfl, rfl, rfl, rfl, Nat.le_refl _⟩
  · rw [if_neg hxc]
    obtain ⟨s', heq, hxcap⟩ := growByBytes_reaches hWF hx (by omega)
    obtain ⟨hWF', hdata, hszf, hstr, hpg, hcapmono, hcom⟩ := growByBytes_ok_WF hWF heq
    exact ⟨s', heq, hWF', hxcap, hcapmono, hdata, hszf, hstr, hpg, hcom⟩

theorem reserve_ok_WF {α : Type} {s s' : VecState α} {x : Nat} (hWF : WF s)
    (h : LeanVec.reserve s x = .ok s') :
    WF s' ∧ s'.data = s.data ∧ s'.size = s.size ∧ s'.stride = s.stride ∧
    s'.pageSize = s.pageSize ∧ s.capacity ≤ s'.capacity ∧ s.committed ≤ s'.committed := by
  unfold LeanVec.reserve at h
  split at h
  · exact Except.noConfusion h
  · split at h
    · cases h
      exact ⟨hWF, rfl, rfl, rfl, rfl, Nat.le_refl _, Nat.le_refl _⟩
    · exact growByBytes_ok_WF hWF h

/-! ### Lemmas about push_back and the copy loop (CustomVector_lean.cpp) -/

theorem push_back_ok {α : Type} {s : VecState α} (hWF : WF s)
    (hroom : s.size < s.capacity) (v : α) :
    LeanVec.push_back s v =
      .ok ({ s with data := s.data ++ [v], size := s.size + 1 }, [Ev.cctor s.size]) := by
  have hwb : (s.size + 1) * s.stride ≤ s.committed := by
    have h1 := wf_cap_mul_le hWF
    have h2 : (s.size + 1) * s.stride ≤ s.capacity * s.stride :=
      Nat.mul_le_mul_right _ (by omega)
    omega
  unfold LeanVec.push_back
  rw [if_neg (by omega : ¬ s.capacity = s.size)]
  dsimp only
  rw [if_pos hwb]

theorem push_back_ok_WF {α : Type} {s t : VecState α} {v : α} {evs : List Ev} (hWF : WF s)
    (h : LeanVec.push_back s v = .ok (t, evs)) :
    WF t ∧ t.stride = s.stride ∧ t.pageSize = s.pageSize ∧
    t.data = s.data ++ [v] ∧ t.size = s.size + 1 := by
  unfold LeanVec.push_back at h
  split at h
  · exact Except.noConfusion h
  · rename_i s1 heq
    have hs1 : WF s1 ∧ s1.data = s.data ∧ s1.size = s.size ∧
        s1.stride = s.stride ∧ s1.pageSize = s.pageSize := by
      split at heq
      · obtain ⟨a, b, c, d, e, -, -⟩ := growByBytes_ok_WF hWF heq
        exact ⟨a, b, c, d, e⟩
      · cases heq
        exact ⟨hWF, rfl, rfl, rfl, rfl⟩
    obtain ⟨hWF1, hdata1, hsz1, hstr1, hpg1⟩ := hs1
    split at h
    · rename_i hwb
      cases h
      refine ⟨?_, hstr1, hpg1, by rw [hdata1], by rw [hsz1]⟩
      obtain ⟨a1, a2, a3, a4, a5, a6, a7, a8⟩ := hWF1
      refine ⟨a1, a2, a3, a4, a5, a6, ?_, ?_⟩
      · show s1.size + 1 = (s1.data ++ [v]).length
        rw [List.length_append, List.length_singleton, a7]
      · show s1.size + 1 ≤ s1.capacity
        rw [a6]
        exact (Nat.le_div_iff_mul_le a1).mpr hwb
    · exact Except.noConfusion h

theorem pushAll_spec {α : Type} : ∀ (vs : List α) (s : VecState α), WF s →
    s.size + vs.length ≤ s.capacity →
    LeanVec.pushAll s vs =
      .ok ({ s with data := s.data ++ vs, size := s.size + vs.length },
           (List.range' s.size vs.length).map Ev.cctor) := by
  intro vs
  induction vs with
  | nil =>
    intro s hWF hlen
    simp [LeanVec.pushAll]
  | cons v vs ih =>
    intro s hWF hlen
    simp only [List.length_cons] at hlen
    have hroom : s.size < s.capacity := by omega
    have hWF1 : WF ({ s with data := s.data ++ [v], size := s.size + 1 } : VecState α) := by
      obtain ⟨a1, a2, a3, a4, a5, a6, a7, a8⟩ := hWF
      refine ⟨a1, a2, a3, a4, a5, a6, ?_, ?_⟩
      · show s.size + 1 = (s.data ++ [v]).length
        rw [List.length_append, List.length_singleton, a7]
      · show s.size + 1 ≤ s.capacity
        omega
    have hlen1 : ({ s with data := s.data ++ [v], size := s.size + 1 } : VecState α).size +
        vs.length ≤ ({ s with data := s.data ++ [v], size := s.size + 1 } : VecState α).capacity := by
      show s.size + 1 + vs.length ≤ s.capacity
      omega
    unfold LeanVec.pushAll
    rw [push_back_ok hWF hroom v]
    dsimp only
    rw [ih _ hWF1 hlen1]
    dsimp only
    simp only [List.append_assoc, List.singleton_append, List.length_cons,
      List.range'_succ, List.map_cons]
    rw [show s.size + 1 + vs.length = s.size + (vs.length + 1) from by omega]

theorem operatorAssign_spec {α : Type} {a b : VecState α} (hA : WF a) (hB : WF b)
    (hstr : b.stride = a.stride) :
    ∃ s1 : VecState α,
      LeanVec.operatorAssign a b false =
        .ok ({ s1 with data := b.data, size := b.size },
             (List.range a.size).map Ev.dtor ++
               (List.range' 0 b.size).map Ev.cctor) ∧
      a.capacity ≤ s1.capacity ∧ b.capacity ≤ s1.capacity ∧
      WF ({ s1 with data := b.data, size := b.size } : VecState α) ∧
      s1.stride = a.stride ∧ s1.pageSize = a.pageSize := by
  have hstep : ∃ s1 : VecState α,
      (if b.capacity > a.capacity then LeanVec.reserve a b.capacity else .ok a) = .ok s1 ∧
      WF s1 ∧ a.capacity ≤ s1.capacity ∧ b.capacity ≤ s1.capacity ∧
      s1.stride = a.stride ∧ s1.pageSize = a.pageSize := by
    by_cases hgt : b.capacity > a.capacity
    · rw [if_pos hgt]
      have hx : b.capacity ≤ LeanVec.GetMaxElements a := by
        have := wf_cap_le_max hB
        unfold LeanVec.GetMaxElements
        rw [← hstr]
        exact this
      obtain ⟨s1, heq, hWF1, hbc, hac, hdata, hszf, hs, hp, -⟩ := reserve_ok hA hx
      exact ⟨s1, heq, hWF1, hac, hbc, hs, hp⟩
    · rw [if_neg hgt]
      exact ⟨a, rfl, hA, Nat.le_refl _, by omega, rfl, rfl⟩
  obtain ⟨s1, heq, hWF1, hac, hbc, hs1str, hs1pg⟩ := hstep
  have hWF2 : WF ({ s1 with data := [], size := 0 } : VecState α) := by
    obtain ⟨a1, a2, a3, a4, a5, a6, a7, a8⟩ := hWF1
    exact ⟨a1, a2, a3, a4, a5, a6, rfl, Nat.zero_le _⟩
  have hbl : b.size ≤ b.capacity := hB.2.2.2.2.2.2.2
  have hlen2 : ({ s1 with data := [], size := 0 } : VecState α).size + b.data.length ≤
      ({ s1 with data := [], size := 0 } : VecState α).capacity := by
    show 0 + b.data.length ≤ s1.capacity
    have hbsz : b.size = b.data.length := hB.2.2.2.2.2.2.1
    omega
  refine ⟨s1, ?_, hac, hbc, ?_, hs1str, hs1pg⟩
  · unfold LeanVec.operatorAssign
    rw [if_neg (by decide : ¬ (false = true))]
    rw [heq]
    dsimp only
    rw [pushAll_spec b.data _ hWF2 hlen2]
    dsimp only
    have hbsz : b.size = b.data.length := hB.2.2.2.2.2.2.1
    rw [List.nil_append, List.range_eq_range']
    rw [show (0 : Nat) + b.data.length = b.size from by omega, ← hbsz]
  · obtain ⟨a1, a2, a3, a4, a5, a6, a7, a8⟩ := hWF1
    have hbsz : b.size = b.data.length := hB.2.2.2.2.2.2.1
    exact ⟨a1, a2, a3, a4, a5, a6, hbsz, le_trans hbl hbc⟩

/-! ### Lemmas about the erase shift loop (CustomVector_lean.cpp) -/

theorem shiftLoop_len {α : Type} :
    ∀ (n : Nat) (l : List α) (i k : Nat) (l1 : List α) (evs : List Ev),
      LeanVec.shiftLoop l i k n = some (l1, evs) → l1.length = l.length := by
  intro n
  induction n with
  | zero =>
    intro l i k l1 evs h
    unfold LeanVec.shiftLoop at h
    cases h
    rfl
  | succ n ih =>
    intro l i k l1 evs h
    unfold LeanVec.shiftLoop at h
    split at h
    · exact Option.noConfusion h
    · split at h
      · exact Option.noConfusion h
      · rename_i l2 evs2 hrec
        cases h
        rw [ih _ _ _ _ _ hrec, List.length_set]

theorem shiftLoop_nil {α : Type} {n i k : Nat} (hn : 0 < n) :
    LeanVec.shiftLoop ([] : List α) i k n = none := by
  cases n with
  | zero => omega
  | succ n =>
    unfold LeanVec.shiftLoop
    rw [List.getElem?_nil]

theorem shiftLoop_spec {α : Type} :
    ∀ (n : Nat) (l : List α) (i k : Nat), i + n + k ≤ l.length →
      ∃ l1 : List α,
        LeanVec.shiftLoop l i k n =
          some (l1, (List.range' i n).map (fun j => Ev.assign j (j + k))) ∧
        l1.length = l.length ∧
        ∀ j : Nat, l1[j]? = if i ≤ j ∧ j < i + n then l[j + k]? else l[j]? := by
  intro n
  induction n with
  | zero =>
    intro l i k _
    refine ⟨l, rfl, rfl, ?_⟩
    intro j
    rw [if_neg (by omega)]
  | succ n ih =>
    intro l i k hbound
    have hik : i + k < l.length := by omega
    obtain ⟨v, hv⟩ : ∃ v, l[i + k]? = some v :=
      ⟨l.get ⟨i + k, hik⟩, List.getElem?_eq_getElem hik⟩
    have hbound2 : (i + 1) + n + k ≤ (l.set i v).length := by
      rw [List.length_set]; omega
    obtain ⟨l1, hrec, hlen, hpt⟩ := ih (l.set i v) (i + 1) k hbound2
    refine ⟨l1, ?_, by rw [hlen, List.length_set], ?_⟩
    · unfold LeanVec.shiftLoop
      rw [hv]
      dsimp only
      rw [hrec]
      dsimp only
      rw [List.range'_succ, List.map_cons]
    · intro j
      rw [hpt j]
      by_cases hj1 : i + 1 ≤ j ∧ j < i + 1 + n
      · rw [if_pos hj1, if_pos (by omega)]
        exact List.getElem?_set_ne (by omega)
      · rw [if_neg hj1]
        by_cases hj2 : j = i
        · subst hj2
          rw [if_pos (by omega)]
          rw [List.getElem?_set_self (by omega), hv]
        · rw [List.getElem?_set_ne (fun c => hj2 c.symm), if_neg (by omega)]

theorem shift_take_eq {α : Type} {l l1 : List α} {b k : Nat} (hk : 0 < k)
    (hbk : b + k ≤ l.length) (hlen : l1.length = l.length)
    (hpt : ∀ j : Nat, l1[j]? = if b ≤ j ∧ j < b + (l.length - k - b) then l[j + k]? else l[j]?) :
    l1.take (l.length - k) = l.take b ++ l.drop (b + k) := by
  apply List.ext_getElem?
  intro j
  rw [List.getElem?_take]
  by_cases hj : j < l.length - k
  · rw [if_pos hj, hpt j]
    have hlb : (l.take b).length = b := by
      rw [List.length_take]; omega
    by_cases hjb : j < b
    · rw [if_neg (by omega), List.getElem?_append, hlb, if_pos hjb,
        List.getElem?_take, if_pos hjb]
    · rw [if_pos (by omega : b ≤ j ∧ j < b + (l.length - k - b)),
        List.getElem?_append, hlb, if_neg (by omega), List.getElem?_drop]
      congr 1
      omega
  · rw [if_neg hj]
    symm
    apply List.getElem?_eq_none
    rw [List.length_append, List.length_take, List.length_drop]
    omega

/-! ### Exact characterizations of the erase family, subscript and resize
(CustomVector_lean.cpp) -/

theorem erase_oob {α : Type} {s : VecState α} {i : Nat} (hi : ¬ i < s.size) :
    LeanVec.erase s i = .error .indexOutOfRange := by
  unfold LeanVec.erase
  rw [if_neg hi]

theorem erase_valid {α : Type} {s : VecState α} {i : Nat} (hWF : WF s) (hi : i < s.size) :
    LeanVec.erase s i =
      .ok ({ s with data := s.data.take i ++ s.data.drop (i + 1), size := s.size - 1 },
           (List.range' i (s.size - 1 - i)).map (fun j => Ev.assign j (j + 1)) ++
             [Ev.dtor (s.size - 1)]) := by
  have hlt := wf_size_lt hWF
  have hsz : s.size = s.data.length := hWF.2.2.2.2.2.2.1
  have hsub : sub64 s.size 1 = s.size - 1 := sub64_eq _ _ (by omega) (by omega)
  obtain ⟨l1, hsl, hlen, hpt⟩ := shiftLoop_spec (s.size - 1 - i) s.data i 1 (by omega)
  unfold LeanVec.erase
  rw [if_pos hi, hsub, hsl]
  dsimp only
  have hdt : l1.take (s.size - 1) = s.data.take i ++ s.data.drop (i + 1) := by
    rw [hsz]
    rw [hsz] at hpt
    exact shift_take_eq (by omega) (by omega : i + 1 ≤ s.data.length) hlen hpt
  rw [hdt]

theorem eraseRange_err1 {α : Type} {s : VecState α} {b e : Nat} (h : ¬ e ≥ b) :
    LeanVec.eraseRange s b e = .error .indexOutOfRange := by
  unfold LeanVec.eraseRange
  rw [if_pos h]

theorem eraseRange_err2 {α : Type} {s : VecState α} {b e : Nat} (h1 : e ≥ b)
    (h2 : ¬ e ≤ sub64 s.size 1) :
    LeanVec.eraseRange s b e = .error .indexOutOfRange := by
  unfold LeanVec.eraseRange
  rw [if_neg (not_not_intro h1), if_pos h2]

theorem eraseRange_noop {α : Type} {s : VecState α} {b e : Nat} (h1 : e ≥ b)
    (h2 : e ≤ sub64 s.size 1) (h3 : b = e) :
    LeanVec.eraseRange s b e = .ok (s, []) := by
  unfold LeanVec.eraseRange
  rw [if_neg (not_not_intro h1), if_neg (not_not_intro h2), if_pos h3]

theorem eraseRange_empty_fault {α : Type} {s : VecState α} {b e : Nat}
    (hdata : s.data = []) (hsz0 : s.size = 0) (hbe : b < e) (hlt : e < 2 ^ 64 - 1) :
    LeanVec.eraseRange s b e = .error .fault := by
  have hs1 : sub64 s.size 1 = 2 ^ 64 - 1 := by
    rw [hsz0]; decide
  unfold LeanVec.eraseRange
  rw [if_neg (not_not_intro (by omega : e ≥ b))]
  rw [if_neg (not_not_intro (by rw [hs1]; omega : e ≤ sub64 s.size 1))]
  rw [if_neg (by omega : ¬ b = e)]
  dsimp only
  have hb0 : sub64 s.size (e - b + 1) = 2 ^ 64 - (e - b + 1) := by
    rw [hsz0]
    unfold sub64
    rw [Nat.zero_add]
    exact Nat.mod_eq_of_lt (by omega)
  rw [hb0, hdata, shiftLoop_nil (by omega)]

theorem eraseRange_valid {α : Type} {s : VecState α} {b e : Nat} (hWF : WF s)
    (hbe : b ≤ e) (hel : e < s.size) (hne : b ≠ e) :
    LeanVec.eraseRange s b e =
      .ok ({ s with data := s.data.take b ++ s.data.drop (e + 1),
                    size := s.size - (e - b + 1) },
           (List.range' b (s.size - (e - b + 1) - b)).map
               (fun j => Ev.assign j (j + (e - b + 1))) ++
             (List.range' (s.size - (e - b + 1)) (e - b + 1)).map Ev.dtor) := by
  have hlt := wf_size_lt hWF
  have hsz : s.size = s.data.length := hWF.2.2.2.2.2.2.1
  have hsub1 : sub64 s.size 1 = s.size - 1 := sub64_eq _ _ (by omega) (by omega)
  have hsubk : sub64 s.size (e - b + 1) = s.size - (e - b + 1) :=
    sub64_eq _ _ (by omega) (by omega)
  obtain ⟨l1, hsl, hlen, hpt⟩ :=
    shiftLoop_spec (s.size - (e - b + 1) - b) s.data b (e - b + 1) (by omega)
  unfold LeanVec.eraseRange
  rw [if_neg (not_not_intro (by omega : e ≥ b))]
  rw [if_neg (not_not_intro (by rw [hsub1]; omega : e ≤ sub64 s.size 1))]
  rw [if_neg hne]
  dsimp only
  rw [hsubk, hsl]
  dsimp only
  have hdt : l1.take (s.size - (e - b + 1)) = s.data.take b ++ s.data.drop (e + 1) := by
    rw [hsz]
    rw [hsz] at hpt
    have h2 := shift_take_eq (by omega : 0 < e - b + 1)
      (by omega : b + (e - b + 1) ≤ s.data.length) hlen hpt
    rw [show b + (e - b + 1) = e + 1 from by omega] at h2
    exact h2
  rw [hdt, show s.size - (s.size - (e - b + 1)) = e - b + 1 from by omega]

theorem erase_by_swap_oob {α : Type} {s : VecState α} {i : Nat} (hi : ¬ i < s.size) :
    LeanVec.erase_by_swap s i = .error .indexOutOfRange := by
  unfold LeanVec.erase_by_swap
  rw [if_neg hi]

theorem erase_by_swap_ok {α : Type} {s : VecState α} {i : Nat} (hWF : WF s)
    (hi : i < s.size) :
    ∃ t evs, LeanVec.erase_by_swap s i = .ok (t, evs) ∧
      t.size = s.size - 1 ∧ t.data.length = s.size - 1 ∧ t.capacity = s.capacity ∧
      t.committed = s.committed ∧ t.pageSize = s.pageSize ∧ t.stride = s.stride := by
  have hlt := wf_size_lt hWF
  have hsz : s.size = s.data.length := hWF.2.2.2.2.2.2.1
  have hsub : sub64 s.size 1 = s.size - 1 := sub64_eq _ _ (by omega) (by omega)
  have hv : s.data[s.size - 1]? = some (s.data.get ⟨s.size - 1, by omega⟩) :=
    List.getElem?_eq_getElem (by omega)
  unfold LeanVec.erase_by_swap
  rw [if_pos hi, hsub, hv]
  dsimp only
  by_cases hlast : i < s.size - 1
  · rw [if_pos hlast]
    refine ⟨_, _, rfl, rfl, ?_, rfl, rfl, rfl, rfl⟩
    show ((s.data.set i _).take (s.size - 1)).length = s.size - 1
    rw [List.length_take, List.length_set]
    omega
  · rw [if_neg hlast]
    refine ⟨_, _, rfl, rfl, ?_, rfl, rfl, rfl, rfl⟩
    show (s.data.take (s.size - 1)).length = s.size - 1
    rw [List.length_take]
    omega

theorem subscript_oob {α : Type} {s : VecState α} {i : Nat} (hi : ¬ i < s.size) :
    LeanVec.subscript s i = .error .indexOutOfRange := by
  unfold LeanVec.subscript
  rw [if_neg hi]

theorem subscript_ok {α : Type} {s : VecState α} {i : Nat} (hWF : WF s)
    (hi : i < s.size) :
    ∃ v, LeanVec.subscript s i = .ok v := by
  have hsz : s.size = s.data.length := hWF.2.2.2.2.2.2.1
  have hv : s.data[i]? = some (s.data.get ⟨i, by omega⟩) :=
    List.getElem?_eq_getElem (by omega)
  unfold LeanVec.subscript
  rw [if_pos hi, hv]
  exact ⟨_, rfl⟩

theorem resize_shrink {α : Type} {s : VecState α} {n : Nat} (hWF : WF s)
    (hn : n < s.size) (d : α) :
    LeanVec.resize s n d =
      .ok ({ s with data := s.data.take n, size := n },
           (List.range' n (s.size - n)).map Ev.dtor) := by
  have hmax : n ≤ LeanVec.GetMaxElements s := by
    have h1 := wf_cap_le_max hWF
    have h2 : s.size ≤ s.capacity := hWF.2.2.2.2.2.2.2
    unfold LeanVec.GetMaxElements
    omega
  unfold LeanVec.resize LeanVec.resizeCore
  rw [if_neg (by omega : ¬ n > LeanVec.GetMaxElements s), if_neg (by omega : ¬ n = s.size),
    if_neg (by omega : ¬ n > s.size)]

/-! ### Well-formedness preservation of every operation (CustomVector_lean.cpp) -/

theorem resizeCore_ok_WF {α : Type} {s t : VecState α} {n : Nat} {val : α}
    {mkEv : Nat → Ev} {evs : List Ev} (hWF : WF s)
    (h : LeanVec.resizeCore s n val mkEv = .ok (t, evs)) :
    WF t ∧ t.stride = s.stride ∧ t.pageSize = s.pageSize := by
  unfold LeanVec.resizeCore at h
  split at h
  · exact Except.noConfusion h
  · split at h
    · cases h
      exact ⟨hWF, rfl, rfl⟩
    · split at h
      · rename_i hgt
        split at h
        · exact Except.noConfusion h
        · rename_i s1 heq
          have hs1 : WF s1 ∧ s1.data = s.data ∧ s1.size = s.size ∧
              s1.stride = s.stride ∧ s1.pageSize = s.pageSize := by
            split at heq
            · obtain ⟨a, b, c, d, e, -, -⟩ := growByBytes_ok_WF hWF heq
              exact ⟨a, b, c, d, e⟩
            · cases heq
              exact ⟨hWF, rfl, rfl, rfl, rfl⟩
          obtain ⟨hWF1, hdata1, hsz1, hstr1, hpg1⟩ := hs1
          split at h
          · rename_i hwrite
            cases h
            obtain ⟨a1, a2, a3, a4, a5, a6, a7, a8⟩ := hWF1
            refine ⟨⟨a1, a2, a3, a4, a5, a6, ?_, ?_⟩, hstr1, hpg1⟩
            · show n = (s1.data ++ List.replicate (n - s1.size) val).length
              rw [List.length_append, List.length_replicate, ← a7]
              omega
            · show n ≤ s1.capacity
              rw [a6]
              exact (Nat.le_div_iff_mul_le a1).mpr hwrite
          · exact Except.noConfusion h
      · cases h
        obtain ⟨a1, a2, a3, a4, a5, a6, a7, a8⟩ := hWF
        refine ⟨⟨a1, a2, a3, a4, a5, a6, ?_, ?_⟩, rfl, rfl⟩
        · show n = (s.data.take n).length
          rw [List.length_take]
          omega
        · show n ≤ s.capacity
          omega

theorem erase_ok_WF {α : Type} {s t : VecState α} {i : Nat} {evs : List Ev} (hWF : WF s)
    (h : LeanVec.erase s i = .ok (t, evs)) :
    WF t ∧ t.stride = s.stride ∧ t.pageSize = s.pageSize := by
  by_cases hi : i < s.size
  · rw [erase_valid hWF hi] at h
    cases h
    have hsz : s.size = s.data.length := hWF.2.2.2.2.2.2.1
    obtain ⟨a1, a2, a3, a4, a5, a6, a7, a8⟩ := hWF
    refine ⟨⟨a1, a2, a3, a4, a5, a6, ?_, ?_⟩, rfl, rfl⟩
    · show s.size - 1 = (s.data.take i ++ s.data.drop (i + 1)).length
      rw [List.length_append, List.length_take, List.length_drop]
      omega
    · show s.size - 1 ≤ s.capacity
      omega
  · rw [erase_oob hi] at h
    exact Except.noConfusion h

theorem eraseRange_ok_WF {α : Type} {s t : VecState α} {b e : Nat} {evs : List Ev}
    (hWF : WF s) (hsafe : b = e ∨ e ≠ 2 ^ 64 - 1)
    (h : LeanVec.eraseRange s b e = .ok (t, evs)) :
    WF t ∧ t.stride = s.stride ∧ t.pageSize = s.pageSize := by
  by_cases h1 : e ≥ b
  · by_cases h2 : e ≤ sub64 s.size 1
    · by_cases h3 : b = e
      · rw [eraseRange_noop h1 h2 h3] at h
        cases h
        exact ⟨hWF, rfl, rfl⟩
      · by_cases hsz0 : s.size = 0
        · have hdata : s.data = [] := by
            have hsz : s.size = s.data.length := hWF.2.2.2.2.2.2.1
            cases hd : s.data with
            | nil => rfl
            | cons x xs =>
              rw [hd] at hsz
              simp only [List.length_cons] at hsz
              omega
          have hemax : e ≠ 2 ^ 64 - 1 := by
            rcases hsafe with hbe | hne
            · exact absurd hbe h3
            · exact hne
          have hs1 : sub64 s.size 1 = 2 ^ 64 - 1 := by rw [hsz0]; decide
          rw [eraseRange_empty_fault hdata hsz0 (by omega) (by rw [hs1] at h2; omega)] at h
          exact Except.noConfusion h
        · have hlt := wf_size_lt hWF
          have hsub1 : sub64 s.size 1 = s.size - 1 := sub64_eq _ _ (by omega) (by omega)
          have hel : e < s.size := by rw [hsub1] at h2; omega
          rw [eraseRange_valid hWF (by omega) hel h3] at h
          cases h
          have hsz : s.size = s.data.length := hWF.2.2.2.2.2.2.1
          obtain ⟨a1, a2, a3, a4, a5, a6, a7, a8⟩ := hWF
          refine ⟨⟨a1, a2, a3, a4, a5, a6, ?_, ?_⟩, rfl, rfl⟩
          · show s.size - (e - b + 1) = (s.data.take b ++ s.data.drop (e + 1)).length
            rw [List.length_append, List.length_take, List.length_drop]
            omega
          · show s.size - (e - b + 1) ≤ s.capacity
            omega
    · rw [eraseRange_err2 h1 h2] at h
      exact Except.noConfusion h
  · rw [eraseRange_err1 h1] at h
    exact Except.noConfusion h

theorem erase_by_swap_ok_WF {α : Type} {s t : VecState α} {i : Nat} {evs : List Ev}
    (hWF : WF s) (h : LeanVec.erase_by_swap s i = .ok (t, evs)) :
    WF t ∧ t.stride = s.stride ∧ t.pageSize = s.pageSize := by
  by_cases hi : i < s.size
  · obtain ⟨t', evs', heq, hsz', hlen', hcap', hcom', hpg', hstr'⟩ := erase_by_swap_ok hWF hi
    rw [heq] at h
    cases h
    obtain ⟨a1, a2, a3, a4, a5, a6, a7, a8⟩ := hWF
    refine ⟨⟨?_, ?_, ?_, ?_, ?_, ?_, ?_, ?_⟩, hstr', hpg'⟩
    · rw [hstr']; exact a1
    · rw [hpg']; exact a2
    · rw [hpg']; exact a3
    · rw [hpg', hcom']; exact a4
    · rw [hcom']; exact a5
    · rw [hcap', hcom', hstr']; exact a6
    · rw [hsz', hlen']
    · rw [hsz', hcap']; omega
  · rw [erase_by_swap_oob hi] at h
    exact Except.noConfusion h

theorem pushAll_ok_WF {α : Type} :
    ∀ (vs : List α) (s t : VecState α) (evs : List Ev), WF s →
      LeanVec.pushAll s vs = .ok (t, evs) →
      WF t ∧ t.stride = s.stride ∧ t.pageSize = s.pageSize := by
  intro vs
  induction vs with
  | nil =>
    intro s t evs hWF h
    unfold LeanVec.pushAll at h
    cases h
    exact ⟨hWF, rfl, rfl⟩
  | cons v vs ih =>
    intro s t evs hWF h
    unfold LeanVec.pushAll at h
    split at h
    · exact Except.noConfusion h
    · rename_i s1 evs1 hpb
      split at h
      · exact Except.noConfusion h
      · rename_i s2 evs2 hpa
        cases h
        obtain ⟨hWF1, hstr1, hpg1, -, -⟩ := push_back_ok_WF hWF hpb
        obtain ⟨hWF2, hstr2, hpg2⟩ := ih _ _ _ hWF1 hpa
        exact ⟨hWF2, by rw [hstr2, hstr1], by rw [hpg2, hpg1]⟩

theorem operatorAssign_ok_WF {α : Type} {self other t : VecState α} {flag : Bool}
    {evs : List Ev} (hSelf : WF self)
    (h : LeanVec.operatorAssign self other flag = .ok (t, evs)) :
    WF t ∧ t.stride = self.stride ∧ t.pageSize = self.pageSize := by
  unfold LeanVec.operatorAssign at h
  split at h
  · cases h
    exact ⟨hSelf, rfl, rfl⟩
  · split at h
    · exact Except.noConfusion h
    · rename_i s1 heq
      have hs1 : WF s1 ∧ s1.stride = self.stride ∧ s1.pageSize = self.pageSize := by
        split at heq
        · obtain ⟨a, -, -, b, c, -, -⟩ := reserve_ok_WF hSelf heq
          exact ⟨a, b, c⟩
        · cases heq
          exact ⟨hSelf, rfl, rfl⟩
      obtain ⟨hWF1, hstr1, hpg1⟩ := hs1
      have hWF1e : WF ({ s1 with data := [], size := 0 } : VecState α) := by
        obtain ⟨a1, a2, a3, a4, a5, a6, a7, a8⟩ := hWF1
        exact ⟨a1, a2, a3, a4, a5, a6, rfl, Nat.zero_le _⟩
      split at h
      · exact Except.noConfusion h
      · rename_i s2 evs2 hpa
        cases h
        obtain ⟨hWF2, hstr2, hpg2⟩ := pushAll_ok_WF _ _ _ _ hWF1e hpa
        exact ⟨hWF2, by rw [hstr2]; exact hstr1, by rw [hpg2]; exact hpg1⟩

theorem push_back_map_ok_WF {α : Type} {s t : VecState α} {v : α} (hWF : WF s)
    (h : (LeanVec.push_back s v).map Prod.fst = .ok t) :
    WF t ∧ t.stride = s.stride ∧ t.pageSize = s.pageSize := by
  cases hpb : LeanVec.push_back s v with
  | error e =>
    rw [hpb] at h
    exact Except.noConfusion h
  | ok p =>
    rw [hpb] at h
    cases h
    obtain ⟨a, b, c, -, -⟩ := push_back_ok_WF hWF hpb
    exact ⟨a, b, c⟩

theorem applyOp_ok_WF {α : Type} {s t : VecState α} {op : Op α} (hWF : WF s)
    (hsafe : safeOp op) (h : applyOp s op = .ok t) :
    WF t ∧ t.stride = s.stride ∧ t.pageSize = s.pageSize := by
  cases op with
  | push v =>
    simp only [applyOp] at h
    exact push_back_map_ok_WF hWF h
  | reserveOp x =>
    simp only [applyOp] at h
    obtain ⟨a, -, -, b, c, -, -⟩ := reserve_ok_WF hWF h
    exact ⟨a, b, c⟩
  | resizeOp n d =>
    simp only [applyOp] at h
    cases hrc : LeanVec.resize s n d with
    | error e =>
      rw [hrc] at h
      exact Except.noConfusion h
    | ok p =>
      rw [hrc] at h
      cases h
      exact resizeCore_ok_WF hWF hrc
  | resizeFillOp n v =>
    simp only [applyOp] at h
    cases hrc : LeanVec.resizeFill s n v with
    | error e =>
      rw [hrc] at h
      exact Except.noConfusion h
    | ok p =>
      rw [hrc] at h
      cases h
      exact resizeCore_ok_WF hWF hrc
  | eraseOp i =>
    simp only [applyOp] at h
    cases hre : LeanVec.erase s i with
    | error e =>
      rw [hre] at h
      exact Except.noConfusion h
    | ok p =>
      rw [hre] at h
      cases h
      exact erase_ok_WF hWF hre
  | eraseRangeOp b e =>
    simp only [applyOp] at h
    cases hre : LeanVec.eraseRange s b e with
    | error er =>
      rw [hre] at h
      exact Except.noConfusion h
    | ok p =>
      rw [hre] at h
      cases h
      exact eraseRange_ok_WF hWF hsafe hre
  | eraseSwapOp i =>
    simp only [applyOp] at h
    cases hre : LeanVec.erase_by_swap s i with
    | error e =>
      rw [hre] at h
      exact Except.noConfusion h
    | ok p =>
      rw [hre] at h
      cases h
      exact erase_by_swap_ok_WF hWF hre
  | assignFrom other flag =>
    simp only [applyOp] at h
    cases hre : LeanVec.operatorAssign s other flag with
    | error e =>
      rw [hre] at h
      exact Except.noConfusion h
    | ok p =>
      rw [hre] at h
      cases h
      exact operatorAssign_ok_WF hWF hre

theorem run_ok_WF {α : Type} :
    ∀ (ops : List (Op α)) (s t : VecState α), WF s → (∀ op ∈ ops, safeOp op) →
      run s ops = .ok t → WF t := by
  intro ops
  induction ops with
  | nil =>
    intro s t hWF _ h
    unfold run at h
    cases h
    exact hWF
  | cons op ops ih =>
    intro s t hWF hsafe h
    unfold run at h
    split at h
    · exact Except.noConfusion h
    · rename_i s1 hap
      exact ih _ _ (applyOp_ok_WF hWF (hsafe op (by simp)) hap).1
        (fun o ho => hsafe o (by simp [ho])) h

theorem mkVector_WF {α : Type} {pageSize stride : Nat} (hstr : 0 < stride)
    (hpg : 0 < pageSize) (hdvd : pageSize ∣ MAX_VECTOR_CAPACITY) :
    WF (mkVector α pageSize stride) :=
  ⟨hstr, hpg, hdvd, Dvd.intro 0 rfl, Nat.zero_le _, (Nat.zero_div _).symm, rfl, Nat.le_refl _⟩

/-! ### The claims -/

/-- C1: for every growth request (always a positive byte count at the
append/reserve/resize call sites), `GrowByBytes` behaves as specified at the
reservation ceiling: if the committed end already equals the reserved end
the operation fails without committing anything, and if the page-rounded
request would move the committed end past the reserved end it is clamped to
the remaining address space rounded down to a page boundary (hence not
exceeding that remaining space). -/
theorem growByBytes_ceiling_clamp {α : Type} (s : VecState α) (g : Nat) (hg : 0 < g) :
    (s.committed = MAX_VECTOR_CAPACITY →
      LeanVec.GrowByBytes s g = .error .capacityExceeded) ∧
    (s.committed ≠ MAX_VECTOR_CAPACITY →
     s.committed + MathUtil.roundUpToMultiple g s.pageSize > MAX_VECTOR_CAPACITY →
      LeanVec.GrowByBytes s g =
        .ok { s with
          committed := s.committed +
            MathUtil.roundDownToMultiple (MAX_VECTOR_CAPACITY - s.committed) s.pageSize,
          capacity := (s.committed +
            MathUtil.roundDownToMultiple (MAX_VECTOR_CAPACITY - s.committed) s.pageSize) /
              s.stride } ∧
      MathUtil.roundDownToMultiple (MAX_VECTOR_CAPACITY - s.committed) s.pageSize ≤
        MAX_VECTOR_CAPACITY - s.committed) := by
  constructor
  · intro hc
    unfold LeanVec.GrowByBytes
    rw [if_neg (by omega : ¬ g = 0)]
    simp only []
    rw [if_pos hc]
  · intro hc hcl
    unfold LeanVec.GrowByBytes
    rw [if_neg (by omega : ¬ g = 0)]
    simp only []
    rw [if_neg hc, if_pos hcl]
    exact ⟨rfl, roundDown_le _ _⟩

theorem growByBytes_ceiling_clamp_witness :
    0 < 8192 ∧
    ((⟨[], 0, 268433408, 1073737728, 4096, 4⟩ : VecState Nat).committed = MAX_VECTOR_CAPACITY →
      LeanVec.GrowByBytes (⟨[], 0, 268433408, 1073737728, 4096, 4⟩ : VecState Nat) 8192 =
        .error .capacityExceeded) ∧
    ((⟨[], 0, 268433408, 1073737728, 4096, 4⟩ : VecState Nat).committed ≠ MAX_VECTOR_CAPACITY →
     (⟨[], 0, 268433408, 1073737728, 4096, 4⟩ : VecState Nat).committed +
       MathUtil.roundUpToMultiple 8192 4096 > MAX_VECTOR_CAPACITY →
      LeanVec.GrowByBytes (⟨[], 0, 268433408, 1073737728, 4096, 4⟩ : VecState Nat) 8192 =
        .ok ⟨[], 0, 268435456, 1073741824, 4096, 4⟩ ∧
      MathUtil.roundDownToMultiple (MAX_VECTOR_CAPACITY - 1073737728) 4096 ≤
        MAX_VECTOR_CAPACITY - 1073737728) :=
  ⟨by decide,
   (growByBytes_ceiling_clamp (⟨[], 0, 268433408, 1073737728, 4096, 4⟩ : VecState Nat) 8192
     (by decide)).1,
   (growByBytes_ceiling_clamp (⟨[], 0, 268433408, 1073737728, 4096, 4⟩ : VecState Nat) 8192
     (by decide)).2⟩

/-- C2 counterexample: on a full container with capacity 8 (element stride
512, one committed page), `GetGrowSizeInElements` returns 16, not
`max(capacity, 8) = 8`, and `push_back` therefore commits 16 further
elements' worth of bytes, yielding capacity 24 rather than the 16 the claim
predicts. -/
theorem push_back_growth_counterexample :
    LeanVec.GetGrowSizeInElements (⟨[1, 1, 1, 1, 1, 1, 1, 1], 8, 8, 4096, 4096, 512⟩ :
        VecState Nat) = 16 ∧
    max (⟨[1, 1, 1, 1, 1, 1, 1, 1], 8, 8, 4096, 4096, 512⟩ : VecState Nat).capacity 8 = 8 ∧
    LeanVec.push_back (⟨[1, 1, 1, 1, 1, 1, 1, 1], 8, 8, 4096, 4096, 512⟩ : VecState Nat) 1 =
      .ok (⟨[1, 1, 1, 1, 1, 1, 1, 1, 1], 9, 24, 12288, 4096, 512⟩, [Ev.cctor 8]) ∧
    (24 : Nat) ≠ 8 + 8 := by
  decide

/-- C2 (amended): when `length == capacity`, `push_back` grows by requesting
additional bytes equal to 8 elements when the container is empty and
`2 * capacity` elements otherwise (`GetGrowSizeInElements`), the request
being rounded up to page granularity; shown here for requests that fit
below the reservation ceiling. -/
theorem push_back_growth_request {α : Type} (s : VecState α) (v : α) (hWF : WF s)
    (hfull : s.size = s.capacity)
    (hno : s.committed + MathUtil.roundUpToMultiple
        ((if s.capacity = 0 then 8 else s.capacity * 2) * s.stride) s.pageSize ≤
        MAX_VECTOR_CAPACITY) :
    LeanVec.push_back s v =
      .ok ({ s with
              data := s.data ++ [v], size := s.size + 1,
              committed := s.committed + MathUtil.roundUpToMultiple
                ((if s.capacity = 0 then 8 else s.capacity * 2) * s.stride) s.pageSize,
              capacity := (s.committed + MathUtil.roundUpToMultiple
                ((if s.capacity = 0 then 8 else s.capacity * 2) * s.stride) s.pageSize) /
                  s.stride },
           [Ev.cctor s.size]) := by
  have hstr : 0 < s.stride := hWF.1
  have hcap : 0 < (if s.capacity = 0 then 8 else s.capacity * 2) := by
    rcases Nat.eq_zero_or_pos s.capacity with hc | hc
    · rw [if_pos hc]; omega
    · rw [if_neg (by omega)]; omega
  have hG0 : (if s.capacity = 0 then 8 else s.capacity * 2) * s.stride ≠ 0 :=
    Nat.mul_ne_zero (by omega) (by omega)
  have hRge := roundUp_ge ((if s.capacity = 0 then 8 else s.capacity * 2) * s.stride) s.pageSize
  have hMAX : s.committed ≠ MAX_VECTOR_CAPACITY := by omega
  have hcapmul := wf_cap_mul_le hWF
  have hstride_le : s.stride ≤ (if s.capacity = 0 then 8 else s.capacity * 2) * s.stride :=
    Nat.le_mul_of_pos_left _ hcap
  have hwb : (s.size + 1) * s.stride ≤ s.committed + MathUtil.roundUpToMultiple
      ((if s.capacity = 0 then 8 else s.capacity * 2) * s.stride) s.pageSize := by
    have h1 : (s.size + 1) * s.stride = s.size * s.stride + s.stride := Nat.succ_mul _ _
    have h2 : s.size * s.stride ≤ s.committed := by
      rw [hfull]; exact hcapmul
    omega
  unfold LeanVec.push_back LeanVec.GetGrowSizeInElements LeanVec.GrowByBytes
  rw [if_pos hfull.symm, if_neg hG0]
  simp only []
  rw [if_neg hMAX, if_neg (by omega :
    ¬ s.committed + MathUtil.roundUpToMultiple
        ((if s.capacity = 0 then 8 else s.capacity * 2) * s.stride) s.pageSize >
      MAX_VECTOR_CAPACITY)]
  dsimp only
  rw [if_pos hwb]

theorem push_back_growth_request_witness :
    WF (⟨[7], 1, 1, 4096, 4096, 4096⟩ : VecState Nat) ∧
    (⟨[7], 1, 1, 4096, 4096, 4096⟩ : VecState Nat).size =
      (⟨[7], 1, 1, 4096, 4096, 4096⟩ : VecState Nat).capacity ∧
    LeanVec.push_back (⟨[7], 1, 1, 4096, 4096, 4096⟩ : VecState Nat) 9 =
      .ok (⟨[7, 9], 2, 3, 12288, 4096, 4096⟩, [Ev.cctor 1]) :=
  ⟨by decide, by decide,
   push_back_growth_request (⟨[7], 1, 1, 4096, 4096, 4096⟩ : VecState Nat) 9
     (by decide) (by decide) (by decide)⟩

/-- The intended range-erase contract, met by the CustomVector_lean.cpp
variant: for a well-formed container and a range with
`rangeBegin < rangeEnd < length`, range erase assigns the element at
`i + k` onto `i` (with `k = rangeEnd - rangeBegin + 1`) for each `i` from
`rangeBegin` to `length - k - 1`, destroys the final `k` positions, and
decrements the stored length by exactly `k`; the surviving data is the
prefix before the range followed by the suffix after it.  (The
CustomVector.cpp variant misses the length decrement — see
`eraseRange_missing_size_decrement`.) -/
theorem eraseRange_shifts_and_shrinks {α : Type} (s : VecState α) (b e : Nat)
    (hWF : WF s) (hbe : b < e) (hel : e < s.size) :
    LeanVec.eraseRange s b e =
      .ok ({ s with data := s.data.take b ++ s.data.drop (e + 1),
                    size := s.size - (e - b + 1) },
           (List.range' b (s.size - (e - b + 1) - b)).map
               (fun j => Ev.assign j (j + (e - b + 1))) ++
             (List.range' (s.size - (e - b + 1)) (e - b + 1)).map Ev.dtor) ∧
    (s.data.take b ++ s.data.drop (e + 1)).length = s.size - (e - b + 1) := by
  refine ⟨eraseRange_valid hWF (by omega) hel (by omega), ?_⟩
  have hsz : s.size = s.data.length := hWF.2.2.2.2.2.2.1
  rw [List.length_append, List.length_take, List.length_drop]
  omega

theorem eraseRange_shifts_and_shrinks_witness :
    WF (⟨[123, 456, 789, 123456789], 4, 512, 4096, 4096, 8⟩ : VecState Nat) ∧
    LeanVec.eraseRange (⟨[123, 456, 789, 123456789], 4, 512, 4096, 4096, 8⟩ : VecState Nat) 1 2 =
      .ok (⟨[123, 123456789], 2, 512, 4096, 4096, 8⟩,
           [Ev.assign 1 3, Ev.dtor 2, Ev.dtor 3]) :=
  ⟨by decide, by
    have h := (eraseRange_shifts_and_shrinks
      (⟨[123, 456, 789, 123456789], 4, 512, 4096, 4096, 8⟩ : VecState Nat) 1 2
      (by decide) (by decide) (by decide)).1
    exact h⟩

/-- C3: the claim states the range-erase contract (shift the trailing block
down by `k`, destroy the stale final slots, decrement the length by `k`),
but the cited `CustomVector.cpp::erase(startIndex, endIndex)` is buggy: on
the repository's own `TestEraseByRange` vector `[123, 456, 789, 123456789]`,
`erase(1, 2)` destroys the leading slots 1 and 2, `memmove`s the tail down —
leaving the bytes `[123, 123456789, 789, 123456789]` — and never executes an
`m_size -=`, so the stored length stays 4 instead of dropping to 2.  Every
sibling (`erase(index)`, `erase_by_swap`) and the refined
CustomVector_lean.cpp variant do decrement, marking the omission as a slip;
the lean variant's conforming behavior is `eraseRange_shifts_and_shrinks`
above. -/
theorem eraseRange_missing_size_decrement :
    CV.eraseRange (⟨[123, 456, 789, 123456789], 4, 512, 4096, 4096, 8⟩ : VecState Nat) 1 2 =
      .ok (⟨[123, 123456789, 789, 123456789], 4, 512, 4096, 4096, 8⟩,
           [Ev.dtor 1, Ev.dtor 2]) ∧
    (⟨[123, 123456789, 789, 123456789], 4, 512, 4096, 4096, 8⟩ : VecState Nat).size ≠
      4 - 2 := by
  decide

/-- C4 counterexample: in the CustomVector.cpp variant, `reserve` is not
idempotent.  From a fresh `Vector<int>` (stride 4, page size 4096),
`reserve(1024)` commits one page and sets capacity 1024, but a second
`reserve(1024)` is not a no-op: the guard is the strict
`newCapacity < m_capacity`, so it calls `Grow(0)`, commits one further
page, and doubles the capacity to 2048. -/
theorem reserve_idempotence_counterexample :
    CV.reserve (⟨[], 0, 0, 0, 4096, 4⟩ : VecState Nat) 1024 =
      .ok ⟨[], 0, 1024, 4096, 4096, 4⟩ ∧
    CV.reserve (⟨[], 0, 1024, 4096, 4096, 4⟩ : VecState Nat) 1024 =
      .ok ⟨[], 0, 2048, 8192, 4096, 4⟩ ∧
    (CV.reserve (⟨[], 0, 0, 0, 4096, 4⟩ : VecState Nat) 1024).bind
        (fun t => CV.reserve t 1024) ≠
      CV.reserve (⟨[], 0, 0, 0, 4096, 4⟩ : VecState Nat) 1024 := by
  decide

/-- C4 (amended): in the CustomVector_lean.cpp variant, whose guard is
`newCapacity <= m_capacity`, `reserve` is idempotent: calling `reserve(x)`
twice in a row is the same as calling it once, and a request at or below
the current capacity is a no-op.  (In the CustomVector.cpp variant only
requests strictly below the current capacity are no-ops; an equal request
commits an extra page, see the counterexample.) -/
theorem reserve_idempotent {α : Type} (s : VecState α) (x : Nat) (hWF : WF s) :
    (LeanVec.reserve s x).bind (fun t => LeanVec.reserve t x) = LeanVec.reserve s x ∧
    (x ≤ s.capacity → LeanVec.reserve s x = .ok s) := by
  have hcm := wf_cap_le_max hWF
  constructor
  · by_cases hmax : x > LeanVec.GetMaxElements s
    · unfold LeanVec.reserve
      rw [if_pos hmax]
      rfl
    · obtain ⟨s', heq, hWF', hxcap, hcapmono, hdata, hszf, hstr, hpg, hcom⟩ :=
        reserve_ok hWF (show x ≤ LeanVec.GetMaxElements s by omega)
      rw [heq]
      show LeanVec.reserve s' x = .ok s'
      have hmax' : LeanVec.GetMaxElements s' = LeanVec.GetMaxElements s := by
        unfold LeanVec.GetMaxElements
        rw [hstr]
      unfold LeanVec.reserve
      rw [if_neg (show ¬ x > LeanVec.GetMaxElements s' by rw [hmax']; omega),
        if_pos hxcap]
  · intro hx
    unfold LeanVec.reserve
    rw [if_neg (show ¬ x > LeanVec.GetMaxElements s by
          unfold LeanVec.GetMaxElements; omega),
        if_pos hx]

theorem reserve_idempotent_witness :
    WF (⟨[], 0, 0, 0, 4096, 4⟩ : VecState Nat) ∧
    ((LeanVec.reserve (⟨[], 0, 0, 0, 4096, 4⟩ : VecState Nat) 100).bind
        (fun t => LeanVec.reserve t 100) =
      LeanVec.reserve (⟨[], 0, 0, 0, 4096, 4⟩ : VecState Nat) 100 ∧
     (100 ≤ (⟨[], 0, 0, 0, 4096, 4⟩ : VecState Nat).capacity →
      LeanVec.reserve (⟨[], 0, 0, 0, 4096, 4⟩ : VecState Nat) 100 =
        .ok (⟨[], 0, 0, 0, 4096, 4⟩ : VecState Nat))) :=
  ⟨by decide, reserve_idempotent (⟨[], 0, 0, 0, 4096, 4⟩ : VecState Nat) 100 (by decide)⟩

/-- C5 counterexample: out-of-range arguments are not always rejected with
`IndexOutOfRange`.  On an empty container, the CustomVector.cpp `erase(0)`
performs no index check at all (it runs straight into dead memory, a
fault), and the CustomVector_lean.cpp range erase `erase(0, 3)` passes its
asserts — the upper-bound check `rangeEnd <= m_size - 1` underflows to
`2^64 - 1` — and then faults inside the shift loop instead of failing with
`IndexOutOfRange`. -/
theorem index_checks_counterexample :
    ¬ 0 < (⟨[], 0, 0, 0, 4096, 8⟩ : VecState Nat).size ∧
    CV.erase (⟨[], 0, 0, 0, 4096, 8⟩ : VecState Nat) 0 = .error Err.fault ∧
    CV.erase (⟨[], 0, 0, 0, 4096, 8⟩ : VecState Nat) 0 ≠ .error Err.indexOutOfRange ∧
    LeanVec.eraseRange (⟨[], 0, 0, 0, 4096, 8⟩ : VecState Nat) 0 3 = .error Err.fault ∧
    LeanVec.eraseRange (⟨[], 0, 0, 0, 4096, 8⟩ : VecState Nat) 0 3 ≠
      .error Err.indexOutOfRange := by
  decide

/-- C5 (amended): in the CustomVector_lean.cpp variant, the index arguments
of `erase(index)`, `erase_by_swap(index)` and `operator[]` are always
checked at the point of the call: the call fails with `IndexOutOfRange`
exactly when the index is outside `[0, length)`.  The range arguments of
`erase(rangeBegin, rangeEnd)` are checked correctly exactly on nonempty
containers: the call fails with `IndexOutOfRange` iff the range violates
`rangeEnd ≥ rangeBegin` or `rangeEnd < length`.  (On an empty container
the upper-bound assert underflows and an out-of-range `rangeEnd` slips
through; the CustomVector.cpp erase functions check nothing — see the
counterexample.) -/
theorem index_checks {α : Type} (s : VecState α) (i b e : Nat) (hWF : WF s) :
    (LeanVec.erase s i = .error .indexOutOfRange ↔ ¬ i < s.size) ∧
    (LeanVec.erase_by_swap s i = .error .indexOutOfRange ↔ ¬ i < s.size) ∧
    (LeanVec.subscript s i = .error .indexOutOfRange ↔ ¬ i < s.size) ∧
    (1 ≤ s.size →
      (LeanVec.eraseRange s b e = .error .indexOutOfRange ↔ ¬ (b ≤ e ∧ e < s.size))) := by
  refine ⟨⟨?_, ?_⟩, ⟨?_, ?_⟩, ⟨?_, ?_⟩, ?_⟩
  · intro h hi
    rw [erase_valid hWF hi] at h
    exact Except.noConfusion h
  · intro hi
    exact erase_oob hi
  · intro h hi
    obtain ⟨t, evs, heq, -⟩ := erase_by_swap_ok hWF hi
    rw [heq] at h
    exact Except.noConfusion h
  · intro hi
    exact erase_by_swap_oob hi
  · intro h hi
    obtain ⟨v, heq⟩ := subscript_ok hWF hi
    rw [heq] at h
    exact Except.noConfusion h
  · intro hi
    exact subscript_oob hi
  · intro hone
    have hlt := wf_size_lt hWF
    have hsub1 : sub64 s.size 1 = s.size - 1 := sub64_eq _ _ (by omega) (by omega)
    constructor
    · intro h hcon
      obtain ⟨h1, h2⟩ := hcon
      by_cases h3 : b = e
      · rw [eraseRange_noop h1 (by rw [hsub1]; omega) h3] at h
        exact Except.noConfusion h
      · rw [eraseRange_valid hWF h1 h2 h3] at h
        exact Except.noConfusion h
    · intro hcon
      by_cases h1 : e ≥ b
      · exact eraseRange_err2 h1 (by rw [hsub1]; omega)
      · exact eraseRange_err1 h1

theorem index_checks_witness :
    WF (⟨[123, 456, 789, 123456789], 4, 512, 4096, 4096, 8⟩ : VecState Nat) ∧
    ((LeanVec.erase (⟨[123, 456, 789, 123456789], 4, 512, 4096, 4096, 8⟩ : VecState Nat) 2 =
        .error .indexOutOfRange ↔
        ¬ 2 < (⟨[123, 456, 789, 123456789], 4, 512, 4096, 4096, 8⟩ : VecState Nat).size) ∧
     (LeanVec.erase_by_swap
          (⟨[123, 456, 789, 123456789], 4, 512, 4096, 4096, 8⟩ : VecState Nat) 2 =
        .error .indexOutOfRange ↔
        ¬ 2 < (⟨[123, 456, 789, 123456789], 4, 512, 4096, 4096, 8⟩ : VecState Nat).size) ∧
     (LeanVec.subscript
          (⟨[123, 456, 789, 123456789], 4, 512, 4096, 4096, 8⟩ : VecState Nat) 2 =
        .error .indexOutOfRange ↔
        ¬ 2 < (⟨[123, 456, 789, 123456789], 4, 512, 4096, 4096, 8⟩ : VecState Nat).size) ∧
     (1 ≤ (⟨[123, 456, 789, 123456789], 4, 512, 4096, 4096, 8⟩ : VecState Nat).size →
      (LeanVec.eraseRange
          (⟨[123, 456, 789, 123456789], 4, 512, 4096, 4096, 8⟩ : VecState Nat) 1 2 =
        .error .indexOutOfRange ↔
        ¬ (1 ≤ 2 ∧ 2 < (⟨[123, 456, 789, 123456789], 4, 512, 4096, 4096, 8⟩ :
              VecState Nat).size)))) :=
  ⟨by decide,
   index_checks (⟨[123, 456, 789, 123456789], 4, 512, 4096, 4096, 8⟩ : VecState Nat)
     2 1 2 (by decide)⟩

/-- C6 counterexample: the length bound does not hold for every operation
sequence.  On a freshly constructed container, the single call
`erase(5, 2^64 - 1)` passes both asserts (the upper-bound check
`rangeEnd <= m_size - 1` underflows), runs both loops zero times, and then
`m_size -= elementsToDelete` wraps the stored size to 5 while the capacity
is still 0 — violating `length ≤ capacity`. -/
theorem length_capacity_invariant_counterexample :
    run (mkVector Nat 4096 8) [Op.eraseRangeOp 5 (2 ^ 64 - 1)] =
      .ok ⟨[], 5, 0, 0, 4096, 8⟩ ∧
    ¬ ((⟨[], 5, 0, 0, 4096, 8⟩ : VecState Nat).size ≤
        (⟨[], 5, 0, 0, 4096, 8⟩ : VecState Nat).capacity) := by
  decide

/-- C6 (amended): starting from a freshly constructed container, after every
sequence of operations (append, reserve, resize, erase, erase_by_swap,
range erase, assignment) that completes successfully and never invokes the
one size-wrapping call `erase(rangeBegin, 2^64 - 1)` with
`rangeBegin ≠ rangeEnd` (see the counterexample), the invariant
`0 ≤ length ≤ capacity ≤ maxCapacityBytes / elementStride` holds, with
`capacity` equal to the committed byte count divided by the element stride
(integer division flooring any remainder). -/
theorem length_capacity_invariant {α : Type} (stride pageSize : Nat) (ops : List (Op α))
    (t : VecState α) (hstr : 0 < stride) (hpg : 0 < pageSize)
    (hdvd : pageSize ∣ MAX_VECTOR_CAPACITY) (hsafe : ∀ op ∈ ops, safeOp op)
    (h : run (mkVector α pageSize stride) ops = .ok t) :
    t.size ≤ t.capacity ∧ t.capacity ≤ MAX_VECTOR_CAPACITY / t.stride ∧
    t.capacity = t.committed / t.stride := by
  have hWFt := run_ok_WF ops _ _ (mkVector_WF hstr hpg hdvd) hsafe h
  exact ⟨hWFt.2.2.2.2.2.2.2, wf_cap_le_max hWFt, hWFt.2.2.2.2.2.1⟩

theorem length_capacity_invariant_witness :
    run (mkVector Nat 4096 4) [Op.push 5, Op.reserveOp 100, Op.resizeOp 3 0, Op.eraseOp 0] =
      .ok ⟨[0, 0], 2, 1024, 4096, 4096, 4⟩ ∧
    ((⟨[0, 0], 2, 1024, 4096, 4096, 4⟩ : VecState Nat).size ≤
        (⟨[0, 0], 2, 1024, 4096, 4096, 4⟩ : VecState Nat).capacity ∧
      (⟨[0, 0], 2, 1024, 4096, 4096, 4⟩ : VecState Nat).capacity ≤
        MAX_VECTOR_CAPACITY / (⟨[0, 0], 2, 1024, 4096, 4096, 4⟩ : VecState Nat).stride ∧
      (⟨[0, 0], 2, 1024, 4096, 4096, 4⟩ : VecState Nat).capacity =
        (⟨[0, 0], 2, 1024, 4096, 4096, 4⟩ : VecState Nat).committed /
          (⟨[0, 0], 2, 1024, 4096, 4096, 4⟩ : VecState Nat).stride) :=
  ⟨by decide,
   length_capacity_invariant 4 4096
     [Op.push 5, Op.reserveOp 100, Op.resizeOp 3 0, Op.eraseOp 0]
     (⟨[0, 0], 2, 1024, 4096, 4096, 4⟩ : VecState Nat)
     (by decide) (by decide) (by decide) (by decide) (by decide)⟩

/-- C7: shrinking `resize(newLength)` with `newLength < length` destroys
exactly the elements at indices `[newLength, length)` in ascending index
order, sets the length to `newLength`, keeps every element below
`newLength` unchanged (the surviving data is the prefix), and leaves the
capacity and committed range untouched (no implicit shrink-to-fit). -/
theorem resize_shrink_destroys_tail {α : Type} (s : VecState α) (n : Nat) (d : α)
    (hWF : WF s) (hn : n < s.size) :
    LeanVec.resize s n d =
      .ok ({ s with data := s.data.take n, size := n },
           (List.range' n (s.size - n)).map Ev.dtor) ∧
    (s.data.take n).length = n := by
  refine ⟨resize_shrink hWF hn d, ?_⟩
  have hsz : s.size = s.data.length := hWF.2.2.2.2.2.2.1
  rw [List.length_take]
  omega

theorem resize_shrink_destroys_tail_witness :
    WF (⟨[1, 2, 3, 4, 5], 5, 512, 4096, 4096, 8⟩ : VecState Nat) ∧
    (LeanVec.resize (⟨[1, 2, 3, 4, 5], 5, 512, 4096, 4096, 8⟩ : VecState Nat) 2 0 =
      .ok (⟨[1, 2], 2, 512, 4096, 4096, 8⟩, [Ev.dtor 2, Ev.dtor 3, Ev.dtor 4]) ∧
     ((⟨[1, 2, 3, 4, 5], 5, 512, 4096, 4096, 8⟩ : VecState Nat).data.take 2).length = 2) :=
  ⟨by decide,
   resize_shrink_destroys_tail (⟨[1, 2, 3, 4, 5], 5, 512, 4096, 4096, 8⟩ : VecState Nat)
     2 0 (by decide) (by decide)⟩

/-- C8 counterexample: in the CustomVector_lean.cpp variant, `erase(1, 1)`
on `[123, 456, 789, 123456789]` is a no-op — the guard
`rangeBegin != rangeEnd` skips everything — so no element is removed and
the length stays 4 instead of dropping to 3. -/
theorem degenerate_range_erase_counterexample :
    LeanVec.eraseRange (⟨[123, 456, 789, 123456789], 4, 512, 4096, 4096, 8⟩ :
        VecState Nat) 1 1 =
      .ok (⟨[123, 456, 789, 123456789], 4, 512, 4096, 4096, 8⟩, []) ∧
    (⟨[123, 456, 789, 123456789], 4, 512, 4096, 4096, 8⟩ : VecState Nat).size ≠ 4 - 1 := by
  decide

/-- C8 (amended): the two variants disagree on the degenerate range.  In
CustomVector.cpp, `erase(a, a)` with `a < length` delegates to the
single-element `erase(a)`: it removes the element at `a` and decrements the
length by one.  In CustomVector_lean.cpp, `erase(a, a)` is a documented
no-op. -/
theorem degenerate_range_erase {α : Type} (s : VecState α) (a : Nat) (hWF : WF s)
    (ha : a < s.size) :
    CV.eraseRange s a a =
      .ok ({ s with data := s.data.take a ++ s.data.drop (a + 1), size := s.size - 1 },
           [Ev.dtor a]) ∧
    LeanVec.eraseRange s a a = .ok (s, []) := by
  have hlt := wf_size_lt hWF
  have hsub : sub64 s.size 1 = s.size - 1 := sub64_eq _ _ (by omega) (by omega)
  constructor
  · unfold CV.eraseRange
    rw [if_pos rfl]
    unfold CV.erase
    rw [if_pos ha, hsub]
  · exact eraseRange_noop (Nat.le_refl a) (by rw [hsub]; omega) rfl

theorem degenerate_range_erase_witness :
    WF (⟨[123, 456, 789, 123456789], 4, 512, 4096, 4096, 8⟩ : VecState Nat) ∧
    (CV.eraseRange (⟨[123, 456, 789, 123456789], 4, 512, 4096, 4096, 8⟩ : VecState Nat) 1 1 =
      .ok (⟨[123, 789, 123456789], 3, 512, 4096, 4096, 8⟩, [Ev.dtor 1]) ∧
     LeanVec.eraseRange (⟨[123, 456, 789, 123456789], 4, 512, 4096, 4096, 8⟩ :
        VecState Nat) 1 1 =
      .ok ((⟨[123, 456, 789, 123456789], 4, 512, 4096, 4096, 8⟩ : VecState Nat), [])) :=
  ⟨by decide,
   degenerate_range_erase (⟨[123, 456, 789, 123456789], 4, 512, 4096, 4096, 8⟩ :
     VecState Nat) 1 (by decide) (by decide)⟩

/-- C9 counterexample: after assignment the capacity does not always equal
`max` of the old and the source capacity.  With 6-byte elements
(`TestAssignmentOdd`'s `SixByte`), assigning a two-page vector
(capacity 1365) to a one-page vector (capacity 682) calls
`reserve(1365)`, which commits `roundUp((1365 - 682) * 6) = 8192` bytes —
two further pages — and ends with capacity 2048, strictly above
`max 682 1365 = 1365`. -/
theorem assignment_capacity_counterexample :
    WF (⟨[5], 1, 682, 4096, 4096, 6⟩ : VecState Nat) ∧
    WF (⟨[7, 9], 2, 1365, 8192, 4096, 6⟩ : VecState Nat) ∧
    LeanVec.operatorAssign (⟨[5], 1, 682, 4096, 4096, 6⟩ : VecState Nat)
        (⟨[7, 9], 2, 1365, 8192, 4096, 6⟩ : VecState Nat) false =
      .ok (⟨[7, 9], 2, 2048, 12288, 4096, 6⟩, [Ev.dtor 0, Ev.cctor 0, Ev.cctor 1]) ∧
    (2048 : Nat) ≠ max 682 1365 := by
  decide

/-- C9 (amended): copy assignment between distinct containers first destroys
all of the target's live elements (one destructor per index, in order),
grows the target's capacity when the source's is larger and never shrinks
it, sets the length to 0 and then copy-constructs each source element in
order through the normal append path; afterwards the target holds exactly
the source's elements and its capacity is at least the maximum of its old
capacity and the source's capacity (equal to that maximum only up to page
rounding, see the counterexample). -/
theorem assignment_replaces_contents {α : Type} (a b : VecState α) (hA : WF a) (hB : WF b)
    (hstr : b.stride = a.stride) :
    ∃ s1 : VecState α,
      LeanVec.operatorAssign a b false =
        .ok ({ s1 with data := b.data, size := b.size },
             (List.range a.size).map Ev.dtor ++ (List.range' 0 b.size).map Ev.cctor) ∧
      ({ s1 with data := b.data, size := b.size } : VecState α).capacity = s1.capacity ∧
      max a.capacity b.capacity ≤ s1.capacity := by
  obtain ⟨s1, heq, hac, hbc, hWF', hs, hp⟩ := operatorAssign_spec hA hB hstr
  exact ⟨s1, heq, rfl, by omega⟩

theorem assignment_replaces_contents_witness :
    WF (⟨[5], 1, 682, 4096, 4096, 6⟩ : VecState Nat) ∧
    WF (⟨[7, 9], 2, 1365, 8192, 4096, 6⟩ : VecState Nat) ∧
    (∃ s1 : VecState Nat,
      LeanVec.operatorAssign (⟨[5], 1, 682, 4096, 4096, 6⟩ : VecState Nat)
          (⟨[7, 9], 2, 1365, 8192, 4096, 6⟩ : VecState Nat) false =
        .ok ({ s1 with data := [7, 9], size := 2 },
             (List.range 1).map Ev.dtor ++ (List.range' 0 2).map Ev.cctor) ∧
      ({ s1 with data := ([7, 9] : List Nat), size := 2 } : VecState Nat).capacity =
        s1.capacity ∧
      max 682 1365 ≤ s1.capacity) :=
  ⟨by decide, by decide,
   assignment_replaces_contents (⟨[5], 1, 682, 4096, 4096, 6⟩ : VecState Nat)
     (⟨[7, 9], 2, 1365, 8192, 4096, 6⟩ : VecState Nat) (by decide) (by decide) (by decide)⟩

/-- C10: self-assignment is a complete no-op: the pointer-identity guard
`this != &other` short-circuits the whole body, so the state is returned
unchanged and no destructor, copy constructor or assignment of an element
is performed (the event trace is empty). -/
theorem self_assignment_noop {α : Type} (v : VecState α) :
    LeanVec.operatorAssign v v true = .ok (v, []) := by
  unfold LeanVec.operatorAssign
  rw [if_pos rfl]
